import Mathlib

/-!
Shallow embedding of the pymagnet repository (src/downloader.py and
src/cli_downloader.py) and verification of the frozen claims about its
specification.

The repository drives a libtorrent transfer engine.  The engine itself is
out of scope (per the spec it is an external collaborator), so it is
modelled as an oracle: a function from polling cycles to engine statuses,
plus a per-cycle seed flag, interruption flag and failure flag.  Each
polling cycle corresponds to one `time.sleep(1)` in the source, so the
cycle counter doubles as the elapsed-seconds clock used by the
metadata-timeout check (`time.time() - start_time > timeout`).

Loops that the source terminates only via engine events (the download
loops) take an explicit fuel argument and return `none` when the fuel is
exhausted; theorems supply enough fuel through their hypotheses.  The
metadata loop is self-terminating (its timeout check bounds it by 62
iterations), so it is always run with fuel 62.
-/

/-! ## Formatting helpers (src/cli_downloader.py)

`format_time` and `format_bytes` operate on Python numbers; they are
embedded over `ℚ`.  Python's `int()` truncates toward zero, `//` is floor
division and `%` is the floor-convention remainder.
-/

/-- Python `int(q)`: truncation toward zero. -/
def truncInt (q : ℚ) : ℤ := if 0 ≤ q then ⌊q⌋ else -⌊-q⌋

/-- Python `x // y` on numbers (floor division, result as a number). -/
def pyFloordiv (x y : ℚ) : ℚ := (⌊x / y⌋ : ℤ)

/-- Python `x % y` on numbers (floor-convention remainder). -/
def pyMod (x y : ℚ) : ℚ := x - y * (⌊x / y⌋ : ℤ)

/-- Round to the nearest integer, ties to even (Python's rounding of an
exactly represented value when formatting). -/
def roundHalfEven (q : ℚ) : ℤ :=
  if Int.fract q < 1 / 2 then ⌊q⌋
  else if 1 / 2 < Int.fract q then ⌊q⌋ + 1
  else if ⌊q⌋ % 2 = 0 then ⌊q⌋ else ⌊q⌋ + 1

/-- Python `f"{q:.2f}"`: fixed-point rendering with two decimal places. -/
def fix2 (q : ℚ) : String :=
  let n : ℤ := roundHalfEven (q * 100)
  let sign := if n < 0 then "-" else ""
  let m := n.natAbs
  sign ++ toString (m / 100) ++ "." ++
    (if m % 100 < 10 then "0" else "") ++ toString (m % 100)

/-- src/cli_downloader.py `format_time` (lines 26-40). -/
def format_time (seconds : ℚ) : String :=
  if seconds = 0 then "N/A"
  else
    let hours : ℤ := truncInt (pyFloordiv seconds 3600)
    let minutes : ℤ := truncInt (pyFloordiv (pyMod seconds 3600) 60)
    let secs : ℤ := truncInt (pyMod seconds 60)
    if 0 < hours then
      toString hours ++ "h " ++ toString minutes ++ "m " ++ toString secs ++ "s"
    else if 0 < minutes then
      toString minutes ++ "m " ++ toString secs ++ "s"
    else
      toString secs ++ "s"

/-- The unit list iterated by `format_bytes` (the `for unit in [...]` loop). -/
def byteUnits : List String := ["B", "KB", "MB", "GB", "TB"]

/-- The loop body of `format_bytes`: try each unit in turn, dividing by
1024; fall through to `"PB"` when the list is exhausted. -/
def formatBytesGo : ℚ → List String → String
  | v, [] => fix2 v ++ " PB"
  | v, u :: us => if v < 1024 then fix2 v ++ " " ++ u else formatBytesGo (v / 1024) us

/-- src/cli_downloader.py `format_bytes` (lines 17-23). -/
def format_bytes (bytes_val : ℚ) : String := formatBytesGo bytes_val byteUnits

/-- The unit label attached at scaling depth `k` (`"PB"` from depth 5 on). -/
def unitName (k : ℕ) : String := byteUnits.getD k "PB"

/-! ## Engine model

The libtorrent engine is modelled as an oracle indexed by polling cycle.
One cycle = one `time.sleep(1)`, so the cycle index is also the elapsed
seconds used by the timeout checks.
-/

/-- The fields of `handle.status()` read by the source. -/
structure EngineStatus where
  has_metadata : Bool
  progress : ℚ
  download_rate : ℚ
  upload_rate : ℚ
  num_peers : ℕ
  num_seeds : ℕ
  total_done : ℕ
  total_wanted : ℕ
  state : String
deriving DecidableEq

/-- The `progress_info` dict built in `TorrentDownloader.download`
(src/downloader.py lines 149-158) and passed to `on_progress`. -/
structure ProgressInfo where
  progress : ℚ
  download_rate : ℚ
  upload_rate : ℚ
  num_peers : ℕ
  num_seeds : ℕ
  total_done : ℕ
  total_wanted : ℕ
  state : String
deriving DecidableEq

/-- src/downloader.py lines 149-158: the dict literal.  Note the
`status.progress * 100`. -/
def mkProgressInfo (s : EngineStatus) : ProgressInfo :=
  { progress := s.progress * 100
    download_rate := s.download_rate
    upload_rate := s.upload_rate
    num_peers := s.num_peers
    num_seeds := s.num_seeds
    total_done := s.total_done
    total_wanted := s.total_wanted
    state := s.state }

/-- One entry of `torrent_info.file_at(i)` as read by the source. -/
structure FileEntry where
  name : String
  size : ℕ
deriving DecidableEq

/-- The engine oracle used by src/downloader.py.  `parses` is whether
`lt.parse_magnet_uri` succeeds on the given magnet link; `status t` is
what `handle.status()` returns during polling cycle `t`; `is_seed t` is
`handle.is_seed()` at cycle `t`.  The remaining fields are the data
`handle.get_torrent_info()` exposes once metadata is available. -/
structure Engine where
  parses : Bool
  status : ℕ → EngineStatus
  is_seed : ℕ → Bool
  name : String
  files : List FileEntry
  total_size : ℕ
  info_hash : String
  save_path : String

/-- src/downloader.py line 115: `timeout = 60`. -/
def timeoutSeconds : ℕ := 60

/-- The metadata wait loop (src/downloader.py lines 118-126, identically
src/cli_downloader.py lines 131-142 and src/downloader.py lines 199-202):
`while not handle.status().has_metadata`, raising once the elapsed time
exceeds `timeout`.  `t` counts completed 1-second sleeps, so it is the
elapsed time at the check; `.ok t` means metadata became visible at cycle
`t`, `.error ()` is the timeout.  `fuel` is a structural termination
device only; the timeout check exits by cycle 61, so fuel 62 from `t = 0`
always suffices (see `metaLoop_isSome`). -/
def metaLoop (st : ℕ → EngineStatus) : ℕ → ℕ → Option (Except Unit ℕ)
  | 0, _ => none
  | fuel + 1, t =>
    if (st t).has_metadata then some (.ok t)
    else if timeoutSeconds < t then some (.error ())
    else metaLoop st fuel (t + 1)

/-- The download loop of `TorrentDownloader.download` (src/downloader.py
lines 144-161): `while not handle.is_seed()`, one `on_progress` call per
cycle when a callback was supplied.  Returns the list of `progress_info`
dicts passed to `on_progress`, in order; `none` when the fuel runs out
before the engine reports seed state. -/
def dlLoop (e : Engine) (on_progress : Bool) : ℕ → ℕ → Option (List ProgressInfo)
  | 0, _ => none
  | fuel + 1, t =>
    if e.is_seed t then some []
    else
      Option.map
        (fun l => (if on_progress then [mkProgressInfo (e.status t)] else []) ++ l)
        (dlLoop e on_progress fuel (t + 1))

/-- The `result` dict returned by `TorrentDownloader.download`
(src/downloader.py lines 172-176). -/
structure DownloadResult where
  name : String
  files : List FileEntry
  download_path : String
deriving DecidableEq

/-- How a call to `TorrentDownloader.download` ends: the parse exception
from `lt.parse_magnet_uri` (InvalidRequest), the `TimeoutError` raised on
metadata timeout (MetadataTimeout), or the result dict. -/
inductive DlOutcome where
  | invalidRequest
  | metadataTimeout
  | ok (r : DownloadResult)
deriving DecidableEq

/-- Observable trace of one `TorrentDownloader.download` call:
how it ended, whether the download loop was entered, the `on_progress`
invocations in order, and how many torrents the call left in the session
(0 if the parse failed before `add_torrent`, 1 otherwise). -/
structure Run where
  outcome : DlOutcome
  downloading : Bool
  snapshots : List ProgressInfo
  torrents : ℕ
deriving DecidableEq

/-- src/downloader.py `TorrentDownloader.download` (lines 92-178):
parse the magnet link, add the torrent, wait for metadata with a 60s
bound, then poll `is_seed` once per second invoking `on_progress`.
`fuel` bounds the download loop only (see `dlLoop`). -/
def TorrentDownloader.download (e : Engine) (on_progress : Bool) (fuel : ℕ) : Option Run :=
  if e.parses then
    match metaLoop e.status 62 0 with
    | none => none
    | some (.error _) => some ⟨.metadataTimeout, false, [], 1⟩
    | some (.ok t0) =>
      Option.map
        (fun snaps => ⟨.ok ⟨e.name, e.files, e.save_path⟩, true, snaps, 1⟩)
        (dlLoop e on_progress fuel t0)
  else some ⟨.invalidRequest, false, [], 0⟩

/-- The `info` dict returned by `TorrentDownloader.get_info`
(src/downloader.py lines 214-219). -/
structure TorrentInfoRes where
  name : String
  files : List FileEntry
  total_size : ℕ
  info_hash : String
deriving DecidableEq

/-- src/downloader.py `TorrentDownloader.get_info` (lines 180-224):
`session.add_torrent` appends the fresh handle `h` to the session's
torrent list, the metadata wait loop runs with the same 60s bound, and on
success `session.remove_torrent(handle)` erases it again before the
return; the `TimeoutError` path raises without removing.  The second
component of the result is the session's torrent list after the call. -/
def TorrentDownloader.get_info (sess : List ℕ) (h : ℕ) (e : Engine) :
    Option (Except Unit TorrentInfoRes × List ℕ) :=
  let sess1 := sess ++ [h]
  match metaLoop e.status 62 0 with
  | none => none
  | some (.error _) => some (.error (), sess1)
  | some (.ok _) => some (.ok ⟨e.name, e.files, e.total_size, e.info_hash⟩, sess1.erase h)

/-! ## CLI model (src/cli_downloader.py)

`download_torrent` is modelled as a pure function from the engine oracle
to an outcome plus the ordered trace of observable events: engine session
creation, torrent addition, metadata-loop iterations, progress-bar
updates and the pause calls of the shutdown paths.
-/

/-- Observable events of a `download_torrent` call. -/
inductive Ev where
  | sessionCreated
  | torrentAdded
  | metaPoll
  | progress (p : ProgressInfo)
  | pauseTorrent
  | pauseSession
deriving DecidableEq

/-- Engine oracle for the CLI.  In addition to the fields of `Engine`:
`interruptAt t` means a `KeyboardInterrupt` is delivered during the
`time.sleep(1)` of download-loop cycle `t` (after that cycle's progress
update), and `failAt t` means the engine raises a generic exception
during cycle `t`'s `handle.status()` query (before the progress update). -/
structure CliEngine where
  parses : Bool
  status : ℕ → EngineStatus
  is_seed : ℕ → Bool
  interruptAt : ℕ → Bool
  failAt : ℕ → Bool

/-- How the body of `download_torrent` ends. -/
inductive CliOutcome where
  | parseError
  | metaTimeout
  | completed
  | cancelled
  | downloadError
deriving DecidableEq

/-- The CLI download loop (src/cli_downloader.py lines 159-181):
`while not handle.is_seed()`, one progress-bar update per cycle, a
1-second sleep per cycle.  A generic engine exception aborts the cycle
before its progress update; a `KeyboardInterrupt` lands during the sleep,
after the update.  Returns the loop's outcome and its progress events;
`none` when the fuel runs out. -/
def cliLoop (e : CliEngine) : ℕ → ℕ → Option (CliOutcome × List Ev)
  | 0, _ => none
  | fuel + 1, t =>
    if e.is_seed t then some (.completed, [])
    else if e.failAt t then some (.downloadError, [])
    else if e.interruptAt t then
      some (.cancelled, [Ev.progress (mkProgressInfo (e.status t))])
    else
      Option.map
        (fun r => (r.1, Ev.progress (mkProgressInfo (e.status t)) :: r.2))
        (cliLoop e fuel (t + 1))

/-- The pause calls executed after the download loop
(src/cli_downloader.py lines 199-209): the `except KeyboardInterrupt`
handler runs `handle.pause()` then `session.pause()`, the generic
`except Exception` handler runs neither, and the `finally` block runs
`session.pause()` on every path out of the try block. -/
def shutdownTail : CliOutcome → List Ev
  | .completed => [Ev.pauseSession]
  | .cancelled => [Ev.pauseTorrent, Ev.pauseSession, Ev.pauseSession]
  | .downloadError => [Ev.pauseSession]
  | _ => []

/-- src/cli_downloader.py `download_torrent` (lines 43-209).  The engine
session is created (with its settings, DHT routers and services) before
the magnet link is parsed; a parse failure returns at line 121 with no
pause; a metadata timeout returns at line 135 with no pause (the
try/finally only wraps the download loop); otherwise the download loop
runs followed by the pause calls of its exit path. -/
def download_torrent (e : CliEngine) (fuel : ℕ) : Option (CliOutcome × List Ev) :=
  if e.parses then
    match metaLoop e.status 62 0 with
    | none => none
    | some (.error _) =>
      some (.metaTimeout,
        [Ev.sessionCreated, Ev.torrentAdded] ++ List.replicate 62 Ev.metaPoll)
    | some (.ok t0) =>
      Option.map
        (fun r => (r.1,
          [Ev.sessionCreated, Ev.torrentAdded] ++ List.replicate t0 Ev.metaPoll
            ++ r.2 ++ shutdownTail r.1))
        (cliLoop e fuel t0)
  else some (.parseError, [Ev.sessionCreated])

/-- src/cli_downloader.py `main` (lines 212-223): exit code 1 when the
magnet-link argument is missing, otherwise `download_torrent` runs and
the process exits 0 whatever the outcome (the function swallows its
errors). -/
def cliMain (hasArg : Bool) (e : CliEngine) (fuel : ℕ) : Option ℕ :=
  if hasArg then Option.map (fun _ => 0) (download_torrent e fuel) else some 1

/-! ## Hypothesis shorthands

Predicates naming the engine-trace assumptions the claims quantify over.
-/

/-- The engine never reports metadata. -/
def neverMeta (st : ℕ → EngineStatus) : Prop := ∀ t, (st t).has_metadata = false

/-- Every engine status carries a progress fraction in `[0, 1]`. -/
def progressInUnit (st : ℕ → EngineStatus) : Prop :=
  ∀ t, 0 ≤ (st t).progress ∧ (st t).progress ≤ 1

/-- The engine does not report seed state during the first `k` cycles
after `t0`. -/
abbrev noSeedBelow (e : Engine) (t0 k : ℕ) : Prop :=
  ∀ j, j < k → e.is_seed (t0 + j) = false

/-- CLI cycles `t0..c` see neither seed state nor an engine failure. -/
abbrev cliQuietBetween (e : CliEngine) (t0 c : ℕ) : Prop :=
  ∀ j, j ≤ c → t0 ≤ j → e.is_seed j = false ∧ e.failAt j = false

/-- No interruption is delivered at CLI cycles `t0..c-1`. -/
abbrev cliNoInterruptBefore (e : CliEngine) (t0 c : ℕ) : Prop :=
  ∀ j, j < c → t0 ≤ j → e.interruptAt j = false

/-! ## Concrete engine traces for witnesses and counterexamples -/

/-- A status with metadata available and progress fraction `1/2`. -/
def sHalf : EngineStatus :=
  ⟨true, 1 / 2, 256, 16, 4, 2, 5, 10, "downloading"⟩

/-- A status with no metadata. -/
def sNoMeta : EngineStatus :=
  ⟨false, 0, 0, 0, 0, 0, 0, 0, "downloading_metadata"⟩

/-- Library engine: metadata immediately, progress `1/2`, seed from
cycle 1 on. -/
def eHalf : Engine :=
  { parses := true, status := fun _ => sHalf, is_seed := fun t => t != 0
    name := "t", files := [⟨"a.txt", 10⟩], total_size := 10
    info_hash := "deadbeef", save_path := "./downloads" }

/-- Library engine that never produces metadata. -/
def eNoMeta : Engine :=
  { parses := true, status := fun _ => sNoMeta, is_seed := fun _ => false
    name := "t", files := [], total_size := 0
    info_hash := "deadbeef", save_path := "./downloads" }

/-- Library engine whose magnet link does not parse. -/
def eBadUri : Engine :=
  { parses := false, status := fun _ => sNoMeta, is_seed := fun _ => false
    name := "t", files := [], total_size := 0
    info_hash := "deadbeef", save_path := "./downloads" }

/-- CLI engine whose magnet link does not parse. -/
def cBadUri : CliEngine :=
  { parses := false, status := fun _ => sNoMeta, is_seed := fun _ => false
    interruptAt := fun _ => false, failAt := fun _ => false }

/-- CLI engine that never produces metadata. -/
def cNoMeta : CliEngine :=
  { parses := true, status := fun _ => sNoMeta, is_seed := fun _ => false
    interruptAt := fun _ => false, failAt := fun _ => false }

/-- CLI engine: metadata immediately, interrupted during the first
download cycle. -/
def cCancel : CliEngine :=
  { parses := true, status := fun _ => sHalf, is_seed := fun _ => false
    interruptAt := fun t => t == 0, failAt := fun _ => false }

/-- CLI engine: metadata immediately, engine failure during the first
download cycle. -/
def cFail : CliEngine :=
  { parses := true, status := fun _ => sHalf, is_seed := fun _ => false
    interruptAt := fun _ => false, failAt := fun t => t == 0 }

/-! ## Loop lemmas -/

/-- Fuel 62 always suffices for the metadata loop started at cycle `t ≤ 61`:
its own timeout check exits by cycle 61. -/
theorem metaLoop_isSome (st : ℕ → EngineStatus) :
    ∀ fuel t, t ≤ 61 → 62 ≤ fuel + t → (metaLoop st fuel t).isSome = true := by
  intro fuel
  induction fuel with
  | zero => intro t ht hf; omega
  | succ fuel ih =>
    intro t ht hf
    simp only [metaLoop]
    by_cases hm : (st t).has_metadata
    · simp [hm]
    · by_cases hlt : timeoutSeconds < t
      · simp [hm, hlt]
      · simp only [hm, hlt, if_false, Bool.false_eq_true, if_neg, ite_false]
        have ht' : t + 1 ≤ 61 := by simp [timeoutSeconds] at hlt; omega
        exact ih (t + 1) ht' (by omega)

/-- If the engine never reports metadata, the metadata loop times out. -/
theorem metaLoop_neverMeta (st : ℕ → EngineStatus) (hnm : neverMeta st) :
    ∀ fuel t, t ≤ 61 → 62 ≤ fuel + t → metaLoop st fuel t = some (.error ()) := by
  intro fuel
  induction fuel with
  | zero => intro t ht hf; omega
  | succ fuel ih =>
    intro t ht hf
    simp only [metaLoop, hnm t, Bool.false_eq_true, if_false]
    by_cases hlt : timeoutSeconds < t
    · simp [hlt]
    · have ht' : t + 1 ≤ 61 := by simp [timeoutSeconds] at hlt; omega
      simp only [hlt, if_false]
      exact ih (t + 1) ht' (by omega)

/-- If the engine first reports seed state `k` cycles after `t`, the
download loop performs exactly one callback per cycle for `k` cycles and
stops. -/
theorem dlLoop_seedAt (e : Engine) :
    ∀ k fuel t, (∀ j, j < k → e.is_seed (t + j) = false) →
      e.is_seed (t + k) = true → k < fuel →
      dlLoop e true fuel t =
        some ((List.range k).map fun j => mkProgressInfo (e.status (t + j))) := by
  intro k
  induction k with
  | zero =>
    intro fuel t _ hseed hfuel
    obtain ⟨fuel, rfl⟩ : ∃ f, fuel = f + 1 := ⟨fuel - 1, by omega⟩
    simp only [dlLoop]
    simpa using hseed
  | succ k ih =>
    intro fuel t hq hseed hfuel
    obtain ⟨fuel, rfl⟩ : ∃ f, fuel = f + 1 := ⟨fuel - 1, by omega⟩
    have h0 : e.is_seed t = false := by simpa using hq 0 (by omega)
    have harr : ∀ j : ℕ, t + 1 + j = t + (j + 1) := by omega
    have hrec := ih fuel (t + 1)
      (fun j hj => by rw [harr j]; exact hq (j + 1) (by omega))
      (by rw [harr k]; exact hseed) (by omega)
    simp only [dlLoop, h0, Bool.false_eq_true, if_false, hrec, Option.map_some',
      if_true, List.range_succ_eq_map, List.map_cons, List.map_map,
      List.singleton_append, Option.some.injEq, List.cons.injEq, Nat.add_zero]
    refine ⟨trivial, ?_⟩
    congr 1
    funext j
    simp only [Function.comp_apply, harr j]

/-- Every snapshot the download loop emits is the dict built from some
engine status. -/
theorem dlLoop_mem (e : Engine) (cb : Bool) :
    ∀ fuel t l, dlLoop e cb fuel t = some l →
      ∀ p ∈ l, ∃ u, p = mkProgressInfo (e.status u) := by
  intro fuel
  induction fuel with
  | zero => intro t l h; simp [dlLoop] at h
  | succ fuel ih =>
    intro t l h p hp
    simp only [dlLoop] at h
    by_cases hs : e.is_seed t
    · simp [hs] at h; subst h; simp at hp
    · simp only [hs, Bool.false_eq_true, if_false, Option.map_eq_some'] at h
      obtain ⟨l', hl', rfl⟩ := h
      rcases List.mem_append.mp hp with hp1 | hp2
      · rcases cb with _ | _
        · simp at hp1
        · simp at hp1; exact ⟨t, hp1⟩
      · exact ih (t + 1) l' hl' p hp2

/-- Shifting the base of an indexed enumeration by one. -/
theorem mapShiftCons {α : Type} (f : ℕ → α) (t k : ℕ) :
    f t :: (List.range k).map (fun j => f (t + 1 + j)) =
      (List.range (k + 1)).map fun j => f (t + j) := by
  rw [List.range_succ_eq_map, List.map_cons, List.map_map, Nat.add_zero]
  refine congrArg (List.cons (f t)) ?_
  apply List.map_congr_left
  intro a _
  simp only [Function.comp_apply]
  congr 1
  omega

/-- If cycles `t..c` see neither seed nor failure, no interruption lands
before cycle `c`, and one lands at cycle `c`, the CLI loop emits one
progress update per cycle `t..c` and reports cancellation. -/
theorem cliLoop_cancelAt (e : CliEngine) :
    ∀ fuel t c, t ≤ c →
      (∀ j, j ≤ c → t ≤ j → e.is_seed j = false ∧ e.failAt j = false) →
      (∀ j, j < c → t ≤ j → e.interruptAt j = false) →
      e.interruptAt c = true → c - t < fuel →
      cliLoop e fuel t =
        some (.cancelled, (List.range (c - t + 1)).map
          fun j => Ev.progress (mkProgressInfo (e.status (t + j)))) := by
  intro fuel
  induction fuel with
  | zero => intro t c _ _ _ _ h; omega
  | succ fuel ih =>
    intro t c htc hq hni hint hfuel
    have hseed : e.is_seed t = false := (hq t htc le_rfl).1
    have hfail : e.failAt t = false := (hq t htc le_rfl).2
    by_cases heq : t = c
    · subst heq
      simp [cliLoop, hseed, hfail, hint, List.range_succ]
    · have htc' : t + 1 ≤ c := by omega
      have hit : e.interruptAt t = false := hni t (by omega) le_rfl
      have hrec := ih (t + 1) c htc'
        (fun j hj hj' => hq j hj (by omega))
        (fun j hj hj' => hni j hj (by omega)) hint (by omega)
      simp only [cliLoop, hseed, hfail, hit, Bool.false_eq_true, if_false, hrec,
        Option.map_some', Option.some.injEq, Prod.mk.injEq, true_and]
      have hms := mapShiftCons (fun u => Ev.progress (mkProgressInfo (e.status u)))
        t (c - (t + 1) + 1)
      simp only at hms
      rw [show c - t + 1 = c - (t + 1) + 1 + 1 from by omega]
      exact hms

/-- The CLI loop only ends in completion, cancellation or a download
error. -/
theorem cliLoop_outcome (e : CliEngine) :
    ∀ fuel t r, cliLoop e fuel t = some r →
      r.1 = .completed ∨ r.1 = .cancelled ∨ r.1 = .downloadError := by
  intro fuel
  induction fuel with
  | zero => intro t r h; simp [cliLoop] at h
  | succ fuel ih =>
    intro t r h
    simp only [cliLoop] at h
    by_cases hs : e.is_seed t
    · rw [if_pos hs] at h
      injection h with h
      subst h
      exact Or.inl rfl
    · rw [if_neg hs] at h
      by_cases hf : e.failAt t
      · rw [if_pos hf] at h
        injection h with h
        subst h
        exact Or.inr (Or.inr rfl)
      · rw [if_neg hf] at h
        by_cases hi : e.interruptAt t
        · rw [if_pos hi] at h
          injection h with h
          subst h
          exact Or.inr (Or.inl rfl)
        · rw [if_neg hi, Option.map_eq_some'] at h
          obtain ⟨r', hr', rfl⟩ := h
          exact ih (t + 1) r' hr'

/-- Every event the CLI loop itself emits is a progress update. -/
theorem cliLoop_progress_only (e : CliEngine) :
    ∀ fuel t r, cliLoop e fuel t = some r →
      ∀ ev ∈ r.2, ∃ p, ev = Ev.progress p := by
  intro fuel
  induction fuel with
  | zero => intro t r h; simp [cliLoop] at h
  | succ fuel ih =>
    intro t r h
    simp only [cliLoop] at h
    by_cases hs : e.is_seed t
    · rw [if_pos hs] at h
      injection h with h
      subst h
      intro ev hev
      simp at hev
    · rw [if_neg hs] at h
      by_cases hf : e.failAt t
      · rw [if_pos hf] at h
        injection h with h
        subst h
        intro ev hev
        simp at hev
      · rw [if_neg hf] at h
        by_cases hi : e.interruptAt t
        · rw [if_pos hi] at h
          injection h with h
          subst h
          intro ev hev
          simp only [List.mem_singleton] at hev
          exact ⟨_, hev⟩
        · rw [if_neg hi, Option.map_eq_some'] at h
          obtain ⟨r', hr', rfl⟩ := h
          intro ev hev
          simp only [List.mem_cons] at hev
          rcases hev with rfl | hev
          · exact ⟨_, rfl⟩
          · exact ih (t + 1) r' hr' ev hev

/-! ## Claims -/

/-- C2: if the engine never reports metadata within the configured 60s
bound, `TorrentDownloader.download` fails with the metadata-timeout error
and the CLI `download_torrent` ends in its metadata-timeout outcome; in
both, the Downloading phase is never entered — the library run has
`downloading = false` and no progress callbacks, and the CLI trace holds
only the session/torrent setup and the metadata-loop iterations. -/
theorem metadata_timeout_terminal (e : Engine) (c : CliEngine)
    (cb : Bool) (fuel fuel2 : ℕ)
    (hep : e.parses = true) (hem : neverMeta e.status)
    (hcp : c.parses = true) (hcm : neverMeta c.status) :
    TorrentDownloader.download e cb fuel = some ⟨.metadataTimeout, false, [], 1⟩ ∧
    download_torrent c fuel2 = some (.metaTimeout,
      [Ev.sessionCreated, Ev.torrentAdded] ++ List.replicate 62 Ev.metaPoll) := by
  have h1 := metaLoop_neverMeta e.status hem 62 0 (by omega) (by omega)
  have h2 := metaLoop_neverMeta c.status hcm 62 0 (by omega) (by omega)
  constructor
  · simp [TorrentDownloader.download, hep, h1]
  · simp [download_torrent, hcp, h2]

/-- Witness for `metadata_timeout_terminal` at a concrete engine that
never produces metadata. -/
theorem metadata_timeout_terminal_witness :
    eNoMeta.parses = true ∧ neverMeta eNoMeta.status ∧
    cNoMeta.parses = true ∧ neverMeta cNoMeta.status ∧
    (TorrentDownloader.download eNoMeta true 1 = some ⟨.metadataTimeout, false, [], 1⟩ ∧
      download_torrent cNoMeta 1 = some (.metaTimeout,
        [Ev.sessionCreated, Ev.torrentAdded] ++ List.replicate 62 Ev.metaPoll)) :=
  ⟨rfl, fun _ => rfl, rfl, fun _ => rfl,
    metadata_timeout_terminal eNoMeta cNoMeta true 1 1 rfl (fun _ => rfl) rfl (fun _ => rfl)⟩

/-- C4 counterexample: on a malformed magnet URI the CLI still creates
the engine session — `lt.session()` (line 59) runs before
`lt.parse_magnet_uri` (line 116) — so the event trace of the failing call
contains the session-creation event, refuting "no engine session is
created for the request". -/
theorem invalid_uri_session_created_cex :
    download_torrent cBadUri 1 = some (.parseError, [Ev.sessionCreated]) ∧
    Ev.sessionCreated ∈ [Ev.sessionCreated] := by
  constructor
  · decide
  · decide

/-- C4 amended: a malformed magnet URI makes `TorrentDownloader.download`
fail immediately with the invalid-request error, leaving no torrent in
the session and never entering the metadata polling loop, and makes the
CLI return immediately with its parse-error outcome whose trace holds no
metadata-poll and no torrent-added event; the CLI's engine session,
however, is created before the URI is validated. -/
theorem invalid_uri_immediate (e : Engine) (c : CliEngine) (cb : Bool)
    (fuel fuel2 : ℕ) (hep : e.parses = false) (hcp : c.parses = false) :
    TorrentDownloader.download e cb fuel = some ⟨.invalidRequest, false, [], 0⟩ ∧
    download_torrent c fuel2 = some (.parseError, [Ev.sessionCreated]) := by
  constructor
  · simp [TorrentDownloader.download, hep]
  · simp [download_torrent, hcp]

/-- Witness for `invalid_uri_immediate` at concrete non-parsing
requests. -/
theorem invalid_uri_immediate_witness :
    eBadUri.parses = false ∧ cBadUri.parses = false ∧
    (TorrentDownloader.download eBadUri true 1 = some ⟨.invalidRequest, false, [], 0⟩ ∧
      download_torrent cBadUri 1 = some (.parseError, [Ev.sessionCreated])) :=
  ⟨rfl, rfl, invalid_uri_immediate eBadUri cBadUri true 1 1 rfl rfl⟩

/-- C9: `get_info` adds the torrent handle to the session and, on the
successful path, removes exactly that handle before returning, so the
session's torrent list is restored; on the metadata-timeout path the
handle is not removed and stays in the session. -/
theorem get_info_frame (sess : List ℕ) (h : ℕ) (e : Engine)
    (hfresh : h ∉ sess) (r : Except Unit TorrentInfoRes) (fin : List ℕ)
    (hrun : TorrentDownloader.get_info sess h e = some (r, fin)) :
    (r ≠ .error () → fin = sess) ∧ (r = .error () → fin = sess ++ [h]) := by
  simp only [TorrentDownloader.get_info] at hrun
  cases hm : metaLoop e.status 62 0 with
  | none => rw [hm] at hrun; exact absurd hrun (by simp)
  | some er =>
    rw [hm] at hrun
    cases er with
    | error u =>
      simp only [Option.some.injEq, Prod.mk.injEq] at hrun
      obtain ⟨hr, hf⟩ := hrun
      refine ⟨fun hne => absurd hr.symm hne, fun _ => hf.symm⟩
    | ok t0 =>
      simp only [Option.some.injEq, Prod.mk.injEq] at hrun
      obtain ⟨hr, hf⟩ := hrun
      constructor
      · intro _
        rw [← hf, List.erase_append_right _ hfresh]
        simp
      · intro he
        rw [← hr] at he
        simp at he

/-- Witness for `get_info_frame`: a successful `get_info` restores the
session's torrent list. -/
theorem get_info_frame_witness :
    (3 ∉ [7]) ∧
    TorrentDownloader.get_info [7] 3 eHalf =
      some (.ok ⟨"t", [⟨"a.txt", 10⟩], 10, "deadbeef"⟩, [7]) ∧
    ((Except.ok (⟨"t", [⟨"a.txt", 10⟩], 10, "deadbeef"⟩ : TorrentInfoRes) ≠
        Except.error () → [7] = [7]) ∧
      ((Except.ok (⟨"t", [⟨"a.txt", 10⟩], 10, "deadbeef"⟩ : TorrentInfoRes) =
        Except.error ()) → [7] = ([7] : List ℕ) ++ [3])) :=
  ⟨by decide, by rfl,
    get_info_frame [7] 3 eHalf (by decide) _ _ (by rfl)⟩

/-- C1 counterexample: with every engine status carrying progress
fraction `1/2` (inside `[0,1]`), the `'progress'` field of the dict
passed to `on_progress` is `50`, which is not in `[0,1]` — the source
multiplies the engine fraction by 100 (src/downloader.py line 150). -/
theorem progress_field_not_fraction_cex :
    0 ≤ sHalf.progress ∧ sHalf.progress ≤ 1 ∧
    (TorrentDownloader.download eHalf true 2).map
      (fun r => r.snapshots.map (fun p => p.progress)) = some [50] ∧
    ¬ ((50 : ℚ) ≤ 1) := by
  refine ⟨by norm_num [sHalf], by norm_num [sHalf], ?_, by norm_num⟩
  have h : TorrentDownloader.download eHalf true 2 =
      some ⟨.ok ⟨"t", [⟨"a.txt", 10⟩], "./downloads"⟩, true,
        [mkProgressInfo sHalf], 1⟩ := rfl
  rw [h]
  simp only [Option.map_some', List.map_cons, List.map_nil, Option.some.injEq,
    List.cons.injEq, and_true]
  norm_num [mkProgressInfo, sHalf]

/-- C1 amended: the `'progress'` field of every dict delivered to
`on_progress` is the engine's progress fraction multiplied by 100, so for
every engine status with progress in `[0,1]` it lies in `[0,100]`. -/
theorem progress_field_percent_bounds (e : Engine) (cb : Bool) (fuel : ℕ)
    (run : Run) (hpr : progressInUnit e.status)
    (hrun : TorrentDownloader.download e cb fuel = some run) :
    ∀ p ∈ run.snapshots, 0 ≤ p.progress ∧ p.progress ≤ 100 := by
  simp only [TorrentDownloader.download] at hrun
  by_cases hp : e.parses
  · rw [if_pos hp] at hrun
    cases hm : metaLoop e.status 62 0 with
    | none => rw [hm] at hrun; exact absurd hrun (by simp)
    | some er =>
      rw [hm] at hrun
      cases er with
      | error u =>
        injection hrun with hrun
        subst hrun
        intro p hp'
        simp at hp'
      | ok t0 =>
        rw [Option.map_eq_some'] at hrun
        obtain ⟨snaps, hsn, rfl⟩ := hrun
        intro p hp'
        obtain ⟨u, rfl⟩ := dlLoop_mem e cb fuel t0 snaps hsn p hp'
        simp only [mkProgressInfo]
        constructor
        · exact mul_nonneg (hpr u).1 (by norm_num)
        · nlinarith [(hpr u).1, (hpr u).2]
  · rw [if_neg hp] at hrun
    injection hrun with hrun
    subst hrun
    intro p hp'
    simp at hp'

/-- Witness for `progress_field_percent_bounds` at a concrete engine with
fraction `1/2`. -/
theorem progress_field_percent_bounds_witness :
    progressInUnit eHalf.status ∧
    TorrentDownloader.download eHalf true 2 =
      some ⟨.ok ⟨"t", [⟨"a.txt", 10⟩], "./downloads"⟩, true,
        [mkProgressInfo sHalf], 1⟩ ∧
    ∀ p ∈ (⟨.ok ⟨"t", [⟨"a.txt", 10⟩], "./downloads"⟩, true,
        [mkProgressInfo sHalf], 1⟩ : Run).snapshots,
      0 ≤ p.progress ∧ p.progress ≤ 100 :=
  ⟨fun _ => ⟨by norm_num [eHalf, sHalf], by norm_num [eHalf, sHalf]⟩, rfl,
    progress_field_percent_bounds eHalf true 2
      ⟨.ok ⟨"t", [⟨"a.txt", 10⟩], "./downloads"⟩, true, [mkProgressInfo sHalf], 1⟩
      (fun _ => ⟨by norm_num [eHalf, sHalf], by norm_num [eHalf, sHalf]⟩) rfl⟩

/-- C6: with a callback supplied, the download loop makes exactly one
`on_progress` invocation per polling cycle while the engine is not in
seed state, and performs no further cycle once it is: if `is_seed` first
becomes true `k` cycles after the metadata resolved, the run records
exactly the `k` snapshots of those cycles, in order. -/
theorem one_callback_per_cycle (e : Engine) (fuel t0 k : ℕ)
    (hp : e.parses = true)
    (hm : metaLoop e.status 62 0 = some (.ok t0))
    (hns : noSeedBelow e t0 k)
    (hseed : e.is_seed (t0 + k) = true)
    (hfuel : k < fuel) :
    TorrentDownloader.download e true fuel =
      some ⟨.ok ⟨e.name, e.files, e.save_path⟩, true,
        (List.range k).map (fun j => mkProgressInfo (e.status (t0 + j))), 1⟩ := by
  have hd := dlLoop_seedAt e k fuel t0 hns hseed hfuel
  simp [TorrentDownloader.download, hp, hm, hd]

/-- Witness for `one_callback_per_cycle`: seed state first reported at
cycle 1, exactly one callback. -/
theorem one_callback_per_cycle_witness :
    eHalf.parses = true ∧
    metaLoop eHalf.status 62 0 = some (.ok 0) ∧
    noSeedBelow eHalf 0 1 ∧
    eHalf.is_seed (0 + 1) = true ∧
    1 < 2 ∧
    TorrentDownloader.download eHalf true 2 =
      some ⟨.ok ⟨eHalf.name, eHalf.files, eHalf.save_path⟩, true,
        (List.range 1).map (fun j => mkProgressInfo (eHalf.status (0 + j))), 1⟩ :=
  ⟨rfl, rfl, by decide, rfl, by decide,
    one_callback_per_cycle eHalf 2 0 1 rfl rfl (by decide) rfl (by decide)⟩

/-- C3 counterexample: on a metadata timeout the CLI returns before the
try/finally block, so the failing call's trace contains neither a
torrent-pause nor a session-pause event — the shutdown sequence is not
executed before control returns to the caller. -/
theorem error_return_no_shutdown_cex :
    download_torrent cNoMeta 1 = some (.metaTimeout,
      [Ev.sessionCreated, Ev.torrentAdded] ++ List.replicate 62 Ev.metaPoll) ∧
    Ev.pauseTorrent ∉
      ([Ev.sessionCreated, Ev.torrentAdded] ++ List.replicate 62 Ev.metaPoll) ∧
    Ev.pauseSession ∉
      ([Ev.sessionCreated, Ev.torrentAdded] ++ List.replicate 62 Ev.metaPoll) := by
  refine ⟨?_, by decide, by decide⟩
  have h2 := metaLoop_neverMeta cNoMeta.status (fun _ => rfl) 62 0 (by omega) (by omega)
  have hpar : cNoMeta.parses = true := rfl
  simp [download_torrent, hpar, h2]

/-- C3 amended: in the CLI, resolution-phase errors (parse failure and
metadata timeout) return to the caller with no pause executed at all,
while a download-phase engine error ends with the session pause of the
`finally` block — but without pausing the torrent. -/
theorem error_return_shutdown_partial (e : CliEngine) (fuel : ℕ)
    (out : CliOutcome) (evs : List Ev)
    (hrun : download_torrent e fuel = some (out, evs)) :
    ((out = .parseError ∨ out = .metaTimeout) →
      Ev.pauseTorrent ∉ evs ∧ Ev.pauseSession ∉ evs) ∧
    (out = .downloadError →
      evs.getLast? = some Ev.pauseSession ∧ Ev.pauseTorrent ∉ evs) := by
  simp only [download_torrent] at hrun
  by_cases hp : e.parses
  · rw [if_pos hp] at hrun
    cases hm : metaLoop e.status 62 0 with
    | none => rw [hm] at hrun; exact absurd hrun (by simp)
    | some er =>
      rw [hm] at hrun
      cases er with
      | error u =>
        injection hrun with hrun
        rw [Prod.mk.injEq] at hrun
        obtain ⟨ho, he⟩ := hrun
        subst ho
        subst he
        refine ⟨fun _ => ⟨by decide, by decide⟩, fun hde => ?_⟩
        exact CliOutcome.noConfusion hde
      | ok t0 =>
        rw [Option.map_eq_some'] at hrun
        obtain ⟨r, hr, hre⟩ := hrun
        rw [Prod.mk.injEq] at hre
        obtain ⟨ho, he⟩ := hre
        subst ho
        subst he
        have houtc := cliLoop_outcome e fuel t0 r hr
        have hprog := cliLoop_progress_only e fuel t0 r hr
        constructor
        · intro hcase
          rcases hcase with h2 | h2 <;> (rw [h2] at houtc; simp at houtc)
        · intro hde
          rw [hde]
          constructor
          · simp only [shutdownTail]
            rw [List.getLast?_append_cons]
            rfl
          · simp only [shutdownTail, List.mem_append, List.mem_cons,
              List.mem_replicate, List.mem_singleton, List.not_mem_nil]
            intro hmem
            rcases hmem with ((h3 | h3) | h3) | h3
            · rcases h3 with h3 | h3 | h3 <;> simp at h3
            · exact absurd h3.2 (by decide)
            · obtain ⟨p, hp'⟩ := hprog _ h3
              cases hp'
            · rcases h3 with h3 | h3 | h3 | h3 <;> simp at h3
  · rw [if_neg hp] at hrun
    injection hrun with hrun
    rw [Prod.mk.injEq] at hrun
    obtain ⟨ho, he⟩ := hrun
    subst ho
    subst he
    refine ⟨fun _ => ⟨by decide, by decide⟩, fun hde => ?_⟩
    exact CliOutcome.noConfusion hde

/-- Witness for `error_return_shutdown_partial` at a concrete run that
fails in the download phase. -/
theorem error_return_shutdown_partial_witness :
    download_torrent cFail 1 = some (.downloadError,
      [Ev.sessionCreated, Ev.torrentAdded] ++ List.replicate 0 Ev.metaPoll
        ++ [] ++ [Ev.pauseSession]) ∧
    (((CliOutcome.downloadError = .parseError ∨
        CliOutcome.downloadError = .metaTimeout) →
      Ev.pauseTorrent ∉
        ([Ev.sessionCreated, Ev.torrentAdded] ++ List.replicate 0 Ev.metaPoll
          ++ [] ++ [Ev.pauseSession]) ∧
      Ev.pauseSession ∉
        ([Ev.sessionCreated, Ev.torrentAdded] ++ List.replicate 0 Ev.metaPoll
          ++ [] ++ [Ev.pauseSession])) ∧
    (CliOutcome.downloadError = .downloadError →
      ([Ev.sessionCreated, Ev.torrentAdded] ++ List.replicate 0 Ev.metaPoll
        ++ [] ++ [Ev.pauseSession]).getLast? = some Ev.pauseSession ∧
      Ev.pauseTorrent ∉
        ([Ev.sessionCreated, Ev.torrentAdded] ++ List.replicate 0 Ev.metaPoll
          ++ [] ++ [Ev.pauseSession]))) :=
  ⟨rfl, error_return_shutdown_partial cFail 1 .downloadError _ rfl⟩

/-- C5: an interruption delivered during download cycle `c` (with the
engine neither seeded nor failing up to then) ends the CLI call in the
cancelled outcome whose trace shows the progress updates of cycles up to
`c` and then exactly the shutdown sequence — pause the torrent, then
pause the session (twice: handler then `finally`) — with no progress
event after the interruption; the process exit code is 0. -/
theorem cancellation_clean_shutdown (e : CliEngine) (fuel t0 c : ℕ)
    (hp : e.parses = true)
    (hm : metaLoop e.status 62 0 = some (.ok t0))
    (htc : t0 ≤ c)
    (hq : cliQuietBetween e t0 c)
    (hni : cliNoInterruptBefore e t0 c)
    (hint : e.interruptAt c = true)
    (hfuel : c - t0 < fuel) :
    download_torrent e fuel = some (.cancelled,
      [Ev.sessionCreated, Ev.torrentAdded] ++ List.replicate t0 Ev.metaPoll
        ++ (List.range (c - t0 + 1)).map
          (fun j => Ev.progress (mkProgressInfo (e.status (t0 + j))))
        ++ [Ev.pauseTorrent, Ev.pauseSession, Ev.pauseSession]) ∧
    cliMain true e fuel = some 0 := by
  have hl := cliLoop_cancelAt e fuel t0 c htc hq hni hint hfuel
  have hd : download_torrent e fuel = some (.cancelled,
      [Ev.sessionCreated, Ev.torrentAdded] ++ List.replicate t0 Ev.metaPoll
        ++ (List.range (c - t0 + 1)).map
          (fun j => Ev.progress (mkProgressInfo (e.status (t0 + j))))
        ++ [Ev.pauseTorrent, Ev.pauseSession, Ev.pauseSession]) := by
    simp [download_torrent, hp, hm, hl, shutdownTail]
  exact ⟨hd, by simp [cliMain, hd]⟩

/-- Witness for `cancellation_clean_shutdown`: interruption at the first
download cycle. -/
theorem cancellation_clean_shutdown_witness :
    cCancel.parses = true ∧
    metaLoop cCancel.status 62 0 = some (.ok 0) ∧
    0 ≤ 0 ∧
    cliQuietBetween cCancel 0 0 ∧
    cliNoInterruptBefore cCancel 0 0 ∧
    cCancel.interruptAt 0 = true ∧
    0 - 0 < 1 ∧
    (download_torrent cCancel 1 = some (.cancelled,
      [Ev.sessionCreated, Ev.torrentAdded] ++ List.replicate 0 Ev.metaPoll
        ++ (List.range (0 - 0 + 1)).map
          (fun j => Ev.progress (mkProgressInfo (cCancel.status (0 + j))))
        ++ [Ev.pauseTorrent, Ev.pauseSession, Ev.pauseSession]) ∧
    cliMain true cCancel 1 = some 0) :=
  ⟨rfl, rfl, by decide, by decide, by decide, rfl, by decide,
    cancellation_clean_shutdown cCancel 1 0 0 rfl rfl (by decide) (by decide)
      (by decide) rfl (by decide)⟩

/-! ## Formatting claims -/

/-- `truncInt` of zero. -/
theorem truncInt_zero : truncInt 0 = 0 := by
  simp [truncInt]

/-- `truncInt` is the identity on integers. -/
theorem truncInt_intCast (n : ℤ) : truncInt (n : ℚ) = n := by
  unfold truncInt
  by_cases h : (0:ℚ) ≤ (n:ℚ)
  · simp [h, Int.floor_intCast]
  · rw [if_neg h]
    rw [show (-(n:ℚ)) = ((-n : ℤ) : ℚ) by push_cast; ring, Int.floor_intCast]
    omega

/-- A string ending in `"s"` is never the sentinel `"N/A"`. -/
theorem append_s_ne (x : String) : x ++ "s" ≠ "N/A" := by
  intro h
  have hd : x.data ++ ['s'] = ['N', '/', 'A'] := by
    have h2 := congrArg String.data h
    simpa using h2
  rcases x with ⟨l⟩
  simp at hd
  rcases l with _ | ⟨a, _ | ⟨b, _ | ⟨c, l⟩⟩⟩ <;> simp_all

/-- C7: for every non-negative duration, the rendering's units match the
magnitude: exactly 0 gives the sentinel `"N/A"`; positive values below 60
give the seconds-only form; values in `[60, 3600)` give the
minutes-seconds form; values at or above 3600 give the
hours-minutes-seconds form. -/
theorem format_time_units (s : ℚ) (hs : 0 ≤ s) :
    (s = 0 → format_time s = "N/A") ∧
    (0 < s → s < 60 → format_time s = toString (truncInt (pyMod s 60)) ++ "s") ∧
    (60 ≤ s → s < 3600 →
      format_time s = toString (truncInt (pyFloordiv (pyMod s 3600) 60)) ++ "m " ++
        toString (truncInt (pyMod s 60)) ++ "s") ∧
    (3600 ≤ s →
      format_time s = toString (truncInt (pyFloordiv s 3600)) ++ "h " ++
        toString (truncInt (pyFloordiv (pyMod s 3600) 60)) ++ "m " ++
        toString (truncInt (pyMod s 60)) ++ "s") := by
  refine ⟨fun h0 => by simp [format_time, h0], ?_, ?_, ?_⟩
  · intro hpos hlt
    have hne : s ≠ 0 := ne_of_gt hpos
    have hfl3600 : ⌊s / 3600⌋ = 0 := by
      rw [Int.floor_eq_zero_iff]
      constructor
      · positivity
      · rw [div_lt_one (by norm_num)]; linarith
    have hmod : pyMod s 3600 = s := by
      rw [pyMod, hfl3600]; push_cast; ring
    have hfl60 : ⌊s / 60⌋ = 0 := by
      rw [Int.floor_eq_zero_iff]
      constructor
      · positivity
      · rw [div_lt_one (by norm_num)]; linarith
    have hh : ¬ (0 < truncInt (pyFloordiv s 3600)) := by
      rw [pyFloordiv, hfl3600]
      simp [truncInt_intCast, truncInt_zero]
    have hm : ¬ (0 < truncInt (pyFloordiv (pyMod s 3600) 60)) := by
      rw [hmod, pyFloordiv, hfl60]
      simp [truncInt_intCast, truncInt_zero]
    simp only [format_time, if_neg hne, if_neg hh, if_neg hm]
  · intro hge hlt
    have hne : s ≠ 0 := by positivity
    have hfl3600 : ⌊s / 3600⌋ = 0 := by
      rw [Int.floor_eq_zero_iff]
      constructor
      · positivity
      · rw [div_lt_one (by norm_num)]; linarith
    have hmod : pyMod s 3600 = s := by
      rw [pyMod, hfl3600]; push_cast; ring
    have hh : ¬ (0 < truncInt (pyFloordiv s 3600)) := by
      rw [pyFloordiv, hfl3600]
      simp [truncInt_intCast, truncInt_zero]
    have hm : 0 < truncInt (pyFloordiv (pyMod s 3600) 60) := by
      rw [hmod, pyFloordiv, truncInt_intCast]
      have h1 : (1:ℤ) ≤ ⌊s / 60⌋ := by
        rw [Int.le_floor]
        rw [show ((1:ℤ):ℚ) = 1 by norm_num, le_div_iff₀ (by norm_num : (0:ℚ) < 60)]
        linarith
      omega
    simp only [format_time, if_neg hne, if_neg hh, if_pos hm]
  · intro hge
    have hne : s ≠ 0 := by positivity
    have hh : 0 < truncInt (pyFloordiv s 3600) := by
      rw [pyFloordiv, truncInt_intCast]
      have h1 : (1:ℤ) ≤ ⌊s / 3600⌋ := by
        rw [Int.le_floor]
        rw [show ((1:ℤ):ℚ) = 1 by norm_num, le_div_iff₀ (by norm_num : (0:ℚ) < 3600)]
        linarith
      omega
    simp only [format_time, if_neg hne, if_pos hh]

/-- Witness for `format_time_units` at 75 seconds. -/
theorem format_time_units_witness :
    0 ≤ (75 : ℚ) ∧
    (((75 : ℚ) = 0 → format_time 75 = "N/A") ∧
      (0 < (75 : ℚ) → (75 : ℚ) < 60 →
        format_time 75 = toString (truncInt (pyMod 75 60)) ++ "s") ∧
      ((60 : ℚ) ≤ 75 → (75 : ℚ) < 3600 →
        format_time 75 = toString (truncInt (pyFloordiv (pyMod 75 3600) 60)) ++ "m " ++
          toString (truncInt (pyMod 75 60)) ++ "s") ∧
      ((3600 : ℚ) ≤ 75 →
        format_time 75 = toString (truncInt (pyFloordiv 75 3600)) ++ "h " ++
          toString (truncInt (pyFloordiv (pyMod 75 3600) 60)) ++ "m " ++
          toString (truncInt (pyMod 75 60)) ++ "s")) :=
  ⟨by norm_num, format_time_units 75 (by norm_num)⟩

/-- C10: the sentinel `"N/A"` is produced only for input exactly 0; every
strictly positive duration below one second renders as `"0s"`. -/
theorem format_time_na_only :
    (∀ s : ℚ, format_time s = "N/A" → s = 0) ∧
    (∀ s : ℚ, 0 < s → s < 1 → format_time s = "0s") := by
  constructor
  · intro s h
    by_contra hs
    simp only [format_time, if_neg hs] at h
    by_cases h1 : 0 < truncInt (pyFloordiv s 3600)
    · rw [if_pos h1] at h; exact append_s_ne _ h
    · rw [if_neg h1] at h
      by_cases h2 : 0 < truncInt (pyFloordiv (pyMod s 3600) 60)
      · rw [if_pos h2] at h; exact append_s_ne _ h
      · rw [if_neg h2] at h; exact append_s_ne _ h
  · intro s hpos hlt
    have hne : s ≠ 0 := ne_of_gt hpos
    have hfl3600 : ⌊s / 3600⌋ = 0 := by
      rw [Int.floor_eq_zero_iff]
      refine ⟨by positivity, by rw [div_lt_one (by norm_num)]; linarith⟩
    have hmod : pyMod s 3600 = s := by
      rw [pyMod, hfl3600]; push_cast; ring
    have hfl60 : ⌊s / 60⌋ = 0 := by
      rw [Int.floor_eq_zero_iff]
      refine ⟨by positivity, by rw [div_lt_one (by norm_num)]; linarith⟩
    have hh : ¬ (0 < truncInt (pyFloordiv s 3600)) := by
      rw [pyFloordiv, hfl3600]; simp [truncInt_intCast, truncInt_zero]
    have hm : ¬ (0 < truncInt (pyFloordiv (pyMod s 3600) 60)) := by
      rw [hmod, pyFloordiv, hfl60]; simp [truncInt_intCast, truncInt_zero]
    have hsecs : truncInt (pyMod s 60) = 0 := by
      have hm60 : pyMod s 60 = s := by rw [pyMod, hfl60]; push_cast; ring
      rw [hm60, truncInt, if_pos (le_of_lt hpos), Int.floor_eq_zero_iff]
      exact ⟨le_of_lt hpos, by linarith⟩
    simp only [format_time, if_neg hne, if_neg hh, if_neg hm, hsecs]
    rfl

/-- Witness for `format_time_na_only` at 0 and 1/2. -/
theorem format_time_na_only_witness :
    format_time 0 = "N/A" ∧ (0 : ℚ) = 0 ∧
    0 < (1/2 : ℚ) ∧ (1/2 : ℚ) < 1 ∧ format_time (1/2 : ℚ) = "0s" :=
  ⟨by simp [format_time], format_time_na_only.1 0 (by simp [format_time]),
    by norm_num, by norm_num,
    format_time_na_only.2 (1/2) (by norm_num) (by norm_num)⟩

/-- C8: `format_bytes` walks the unit ladder B, KB, MB, GB, TB, dividing
by 1024 until the scaled value drops below 1024, and falls through to PB
otherwise: if `k` is the first scaling depth at which `b / 1024^k < 1024`
(capped at 5, the PB fall-through), the result is the scaled value
rendered with two decimal places followed by that unit. -/
theorem format_bytes_unit (b : ℚ) (hb : 0 ≤ b) (k : ℕ) (hk : k ≤ 5)
    (hlow : ∀ j, j < k → (1024:ℚ) ^ (j + 1) ≤ b)
    (hhigh : k < 5 → b < 1024 ^ (k + 1)) :
    format_bytes b = fix2 (b / 1024 ^ k) ++ " " ++ unitName k := by
  clear hb
  simp only [format_bytes, byteUnits, formatBytesGo, unitName, div_div]
  interval_cases k
  · have h0 : b < 1024 := by have := hhigh (by omega); simpa using this
    rw [if_pos h0]
    norm_num
  · have h0 : ¬ (b < 1024) := by have := hlow 0 (by omega); simp at this; linarith
    have h1 : b / 1024 < 1024 := by
      rw [div_lt_iff₀ (by norm_num)]
      have := hhigh (by omega); norm_num at this ⊢; linarith
    rw [if_neg h0, if_pos h1]
    norm_num
  · have h0 : ¬ (b < 1024) := by have := hlow 0 (by omega); simp at this; linarith
    have h1 : ¬ (b / 1024 < 1024) := by
      rw [not_lt, le_div_iff₀ (by norm_num)]
      have := hlow 1 (by omega); norm_num at this ⊢; linarith
    have h2 : b / (1024 * 1024) < 1024 := by
      rw [div_lt_iff₀ (by norm_num)]
      have := hhigh (by omega); norm_num at this ⊢; linarith
    rw [if_neg h0, if_neg h1, if_pos h2]
    norm_num
  · have h0 : ¬ (b < 1024) := by have := hlow 0 (by omega); simp at this; linarith
    have h1 : ¬ (b / 1024 < 1024) := by
      rw [not_lt, le_div_iff₀ (by norm_num)]
      have := hlow 1 (by omega); norm_num at this ⊢; linarith
    have h2 : ¬ (b / (1024 * 1024) < 1024) := by
      rw [not_lt, le_div_iff₀ (by norm_num)]
      have := hlow 2 (by omega); norm_num at this ⊢; linarith
    have h3 : b / (1024 * 1024 * 1024) < 1024 := by
      rw [div_lt_iff₀ (by norm_num)]
      have := hhigh (by omega); norm_num at this ⊢; linarith
    rw [if_neg h0, if_neg h1, if_neg h2, if_pos h3]
    norm_num
  · have h0 : ¬ (b < 1024) := by have := hlow 0 (by omega); simp at this; linarith
    have h1 : ¬ (b / 1024 < 1024) := by
      rw [not_lt, le_div_iff₀ (by norm_num)]
      have := hlow 1 (by omega); norm_num at this ⊢; linarith
    have h2 : ¬ (b / (1024 * 1024) < 1024) := by
      rw [not_lt, le_div_iff₀ (by norm_num)]
      have := hlow 2 (by omega); norm_num at this ⊢; linarith
    have h3 : ¬ (b / (1024 * 1024 * 1024) < 1024) := by
      rw [not_lt, le_div_iff₀ (by norm_num)]
      have := hlow 3 (by omega); norm_num at this ⊢; linarith
    have h4 : b / (1024 * 1024 * 1024 * 1024) < 1024 := by
      rw [div_lt_iff₀ (by norm_num)]
      have := hhigh (by omega); norm_num at this ⊢; linarith
    rw [if_neg h0, if_neg h1, if_neg h2, if_neg h3, if_pos h4]
    norm_num
  · have h0 : ¬ (b < 1024) := by have := hlow 0 (by omega); simp at this; linarith
    have h1 : ¬ (b / 1024 < 1024) := by
      rw [not_lt, le_div_iff₀ (by norm_num)]
      have := hlow 1 (by omega); norm_num at this ⊢; linarith
    have h2 : ¬ (b / (1024 * 1024) < 1024) := by
      rw [not_lt, le_div_iff₀ (by norm_num)]
      have := hlow 2 (by omega); norm_num at this ⊢; linarith
    have h3 : ¬ (b / (1024 * 1024 * 1024) < 1024) := by
      rw [not_lt, le_div_iff₀ (by norm_num)]
      have := hlow 3 (by omega); norm_num at this ⊢; linarith
    have h4 : ¬ (b / (1024 * 1024 * 1024 * 1024) < 1024) := by
      rw [not_lt, le_div_iff₀ (by norm_num)]
      have := hlow 4 (by omega); norm_num at this ⊢; linarith
    rw [if_neg h0, if_neg h1, if_neg h2, if_neg h3, if_neg h4]
    norm_num
    rw [String.append_assoc]
    congr 1

/-- Witness for `format_bytes_unit` at 5 MiB (depth 2, unit MB). -/
theorem format_bytes_unit_witness :
    0 ≤ (5242880 : ℚ) ∧ 2 ≤ 5 ∧
    (∀ j, j < 2 → (1024:ℚ) ^ (j + 1) ≤ 5242880) ∧
    (2 < 5 → (5242880 : ℚ) < 1024 ^ (2 + 1)) ∧
    format_bytes 5242880 = fix2 (5242880 / 1024 ^ 2) ++ " " ++ unitName 2 :=
  ⟨by norm_num, by norm_num,
    fun j hj => by interval_cases j <;> norm_num,
    fun _ => by norm_num,
    format_bytes_unit 5242880 (by norm_num) 2 (by norm_num)
      (fun j hj => by interval_cases j <;> norm_num) (fun _ => by norm_num)⟩
